import Mathlib

/-!
Verification development for the claudeclaw scheduling and session-execution
engine.  The definitions below are shallow embeddings of the TypeScript source:

* `src/src/ui/services/jobs.ts` — `matchCronField`, `cronMatches`, `nextCronMatch`;
* `src/src/runner.ts` — the serial promise queue (`enqueue`), rate-limit
  detection and primary/fallback model selection in `execClaude`;
* `src/src/pid.ts` — `checkExistingDaemon`, `writePidFile`, `cleanupPidFile`;
* the daemon main loop (`start`) — `parseClockMinutes`,
  `isHeartbeatExcludedAt`, `nextAllowedHeartbeatAt`, the hot-reload tick and
  the 60-second cron tick.

JavaScript strings are modelled as `List Char`; JavaScript numbers appearing in
the cron matcher are modelled as `Option Int`, with `none` playing the role of
`NaN` (arithmetic propagates `none`, every comparison with `none` is false,
exactly as every comparison with `NaN` is false in JS).  Epoch timestamps are
`Int` milliseconds and the `Date` getters are defined with the standard
proleptic-Gregorian civil-from-days conversion, which is what ECMAScript
specifies for UTC date components.
-/

abbrev Chars := List Char

/-- JS `String.prototype.split(sep)` for a single-character separator.
`splitChar sep s` never returns `[]`; splitting the empty string gives `[[]]`,
matching `"".split(",") == [""]` in JS. -/
def splitChar (sep : Char) : Chars → List Chars
  | [] => [[]]
  | c :: rest =>
    let r := splitChar sep rest
    if c = sep then [] :: r
    else
      match r with
      | [] => [[c]]
      | h :: t => (c :: h) :: t

/-- Split on every character satisfying `p` (single-character boundaries,
empty segments kept). -/
def splitPred (p : Char → Bool) : Chars → List Chars
  | [] => [[]]
  | c :: rest =>
    let r := splitPred p rest
    if p c then [] :: r
    else
      match r with
      | [] => [[c]]
      | h :: t => (c :: h) :: t

/-- JS `String.prototype.trim` (on the char-list model). -/
def trimChars (cs : Chars) : Chars :=
  ((cs.dropWhile Char.isWhitespace).reverse.dropWhile Char.isWhitespace).reverse

/-- JS `s.split(/\s+/)`.  For the empty string JS returns `[""]`; for a
(trimmed) non-empty string it returns the maximal runs of non-whitespace
characters. -/
def jsSplitWs (cs : Chars) : List Chars :=
  if cs = [] then [[]]
  else (splitPred Char.isWhitespace cs).filter (fun t => t ≠ [])

def digitVal (c : Char) : Nat := c.toNat - '0'.toNat

def digitsVal (cs : Chars) : Nat :=
  cs.foldl (fun acc c => acc * 10 + digitVal c) 0

/-- The value of a non-empty all-digit character run, `none` otherwise. -/
def parseDigits (cs : Chars) : Option Nat :=
  if cs ≠ [] ∧ cs.all Char.isDigit then some (digitsVal cs) else none

/-- JS `parseInt(s)` (radix 10): skip leading whitespace, optional sign, then
the longest leading digit run; `NaN` (here `none`) if that run is empty.
(The `0x` hex prefix of `parseInt` is not modelled; no cron or pid input uses
it.) -/
def jsParseInt (cs : Chars) : Option Int :=
  match cs.dropWhile Char.isWhitespace with
  | '-' :: rest => (parseDigits (rest.takeWhile Char.isDigit)).map (fun n => -(n : Int))
  | '+' :: rest => (parseDigits (rest.takeWhile Char.isDigit)).map (fun n => (n : Int))
  | other => (parseDigits (other.takeWhile Char.isDigit)).map (fun n => (n : Int))

/-- JS `Number(s)` restricted to integer numerals: whitespace-trimmed empty
string is `0`, an optionally signed digit run is its value, anything else is
`NaN` (`none`).  (Fractional/hex/exponent forms of `Number` are not modelled;
no cron input uses them.) -/
def jsNumber (cs : Chars) : Option Int :=
  match trimChars cs with
  | [] => some 0
  | '-' :: rest => (parseDigits rest).map (fun n => -(n : Int))
  | '+' :: rest => (parseDigits rest).map (fun n => (n : Int))
  | other => (parseDigits other).map (fun n => (n : Int))

/-- JS `%` (truncated remainder) on NaN-aware numbers: `x % 0` and anything
involving `NaN` is `NaN`. -/
def jsMod (a b : Option Int) : Option Int :=
  match a, b with
  | some a, some b => if b = 0 then none else some (Int.tmod a b)
  | _, _ => none

def jsSub (a b : Option Int) : Option Int :=
  match a, b with
  | some a, some b => some (a - b)
  | _, _ => none

/-- JS `<=` on NaN-aware numbers: any comparison with `NaN` is false. -/
def jsLe (a b : Option Int) : Bool :=
  match a, b with
  | some a, some b => a ≤ b
  | _, _ => false

/-- JS `===` on NaN-aware numbers: `NaN === x` is false. -/
def jsEq (a b : Option Int) : Bool :=
  match a, b with
  | some a, some b => a = b
  | _, _ => false

/-- One atom of a cron field, from `matchCronField` (jobs.ts:52-68):
```
const [range, stepStr] = part.split("/");
const step = stepStr ? parseInt(stepStr) : 1;
if (range === "*") { if (value % step === 0) return true; ... }
if (range.includes("-")) {
  const [lo, hi] = range.split("-").map(Number);
  if (value >= lo && value <= hi && (value - lo) % step === 0) return true; ... }
if (parseInt(range) === value) return true;
```
-/
def cronAtomRangeMatches (range : Chars) (step : Option Int) (value : Int) : Bool :=
  if range = ['*'] then
    jsEq (jsMod (some value) step) (some 0)
  else if range.contains '-' then
    let nums := (splitChar '-' range).map jsNumber
    let lo := (nums[0]?).getD none
    let hi := (nums[1]?).getD none
    jsLe lo (some value) && jsLe (some value) hi &&
      jsEq (jsMod (jsSub (some value) lo) step) (some 0)
  else
    jsEq (jsParseInt range) (some value)

def cronAtomMatchesL (part : Chars) (value : Int) : Bool :=
  let comps := splitChar '/' part
  let step : Option Int :=
    match comps[1]? with
    | some stepCs => if stepCs = [] then some 1 else jsParseInt stepCs
    | none => some 1
  cronAtomRangeMatches (comps.headD []) step value

/-- `matchCronField` (jobs.ts:51-70): comma-split the field, return true as
soon as one atom matches. -/
def matchCronFieldL (field : Chars) (value : Int) : Bool :=
  (splitChar ',' field).any (fun p => cronAtomMatchesL p value)

def matchCronField (field : String) (value : Int) : Bool :=
  matchCronFieldL field.toList value

-- ### The Date model

/-- Civil date from days since the Unix epoch (proleptic Gregorian, Howard
Hinnant's algorithm, the arithmetic ECMAScript prescribes for UTC
components).  Returns `(year, month 1..12, day-of-month 1..31)`. -/
def civilFromDays (z0 : Int) : Int × Nat × Nat :=
  let z := z0 + 719468
  let era := z.fdiv 146097
  let doe := (z - era * 146097).toNat
  let yoe := (doe - doe / 1460 + doe / 36524 - doe / 146096) / 365
  let doy := doe - (365 * yoe + yoe / 4 - yoe / 100)
  let mp := (5 * doy + 2) / 153
  let d := doy - (153 * mp + 2) / 5 + 1
  let m := if mp < 10 then mp + 3 else mp - 9
  (if m ≤ 2 then (yoe : Int) + era * 400 + 1 else (yoe : Int) + era * 400, m, d)

/-- The five date components the cron matcher reads (jobs.ts:74-80).
`date.getMonth()` is 0-based and the code adds 1, so `month` is stored
1-based directly.  `off` is the minute offset added to reach local time (the
process timezone for the two-argument `cronMatches`, `timezoneOffsetMinutes`
for the daemon). -/
structure DateParts where
  minute : Nat
  hour : Nat
  dayOfMonth : Nat
  month : Nat
  dayOfWeek : Nat
deriving DecidableEq, Repr

def datePartsAt (ms off : Int) : DateParts :=
  let l := ms + off * 60000
  let day := l.fdiv 86400000
  let c := civilFromDays day
  { minute := ((l.fdiv 60000).emod 60).toNat
    hour := ((l.fdiv 3600000).emod 24).toNat
    dayOfMonth := c.2.2
    month := c.2.1
    dayOfWeek := ((day + 4).emod 7).toNat }

/-- The `&&`-chain of `cronMatches` (jobs.ts:82-88), with JS evaluation order:
a missing field is `undefined`, and `undefined.split` throws (`none`); the
chain short-circuits as soon as a field fails, so a throw only happens if all
earlier fields matched. -/
def checkFields (fields : List Chars) (d : DateParts) : Option Bool :=
  match fields[0]? with
  | none => none
  | some f0 =>
    if !matchCronFieldL f0 (d.minute : Int) then some false else
    match fields[1]? with
    | none => none
    | some f1 =>
      if !matchCronFieldL f1 (d.hour : Int) then some false else
      match fields[2]? with
      | none => none
      | some f2 =>
        if !matchCronFieldL f2 (d.dayOfMonth : Int) then some false else
        match fields[3]? with
        | none => none
        | some f3 =>
          if !matchCronFieldL f3 (d.month : Int) then some false else
          match fields[4]? with
          | none => none
          | some f4 => some (matchCronFieldL f4 (d.dayOfWeek : Int))

/-- `cronMatches` (jobs.ts:72-89).  `none` models a thrown `TypeError`
(fewer than five fields reached while all earlier ones matched). -/
def cronMatches (expr : String) (ms off : Int) : Option Bool :=
  let fields := jsSplitWs (trimChars expr.toList)
  checkFields fields (datePartsAt ms off)

/-- Start of the scan in `nextCronMatch` (jobs.ts:92-94):
`setSeconds(0, 0)` then `setMinutes(getMinutes() + 1)`. -/
def cronScanStart (after : Int) : Int :=
  after - after.emod 60000 + 60000

def nextCronLoop (expr : String) (off : Int) : Nat → Int → Option Int
  | 0, d => some d
  | fuel + 1, d =>
    match cronMatches expr d off with
    | none => none
    | some true => some d
    | some false => nextCronLoop expr off fuel (d + 60000)

/-- `nextCronMatch` (jobs.ts:91-100): scan forward one minute at a time, at
most 2880 probes; if none matches return the instant one minute past the last
probe. -/
def nextCronMatch (expr : String) (after off : Int) : Option Int :=
  nextCronLoop expr off 2880 (cronScanStart after)

-- ### Sanity checks of the embedding on concrete inputs

example : matchCronField "*/15" 30 = true := by decide
example : matchCronField "*/15" 31 = false := by decide
example : matchCronField "1-5/2,20" 3 = true := by decide
example : matchCronField "1-5/2,20" 4 = false := by decide
example : matchCronField "abc" 7 = false := by decide
example : matchCronField "" 0 = false := by decide
example : cronMatches "*/15 * * * *" 1800000 0 = some true := by decide
example : cronMatches "*/15 * * * *" 1860000 0 = some false := by decide
example : cronMatches "* * *" 0 0 = none := by decide
example : datePartsAt 430200000 0 =
    { minute := 30, hour := 23, dayOfMonth := 5, month := 1, dayOfWeek := 1 } := by decide

-- ### The specification-side cron grammar
-- The spec (and claim C2) quantify over expressions "built from `*`, `*/step`,
-- `N`, `lo-hi[/step]` atoms and comma lists".  `CronAtom` is that grammar
-- (steps are positive: a step is a stride, and the spec formula
-- `value % step == 0` presumes a non-zero divisor), `parseCronAtomL`
-- recognises exactly the strings built from it, and `atomSpecMatches` is the
-- matching semantics in the words of the spec.

inductive CronAtom where
  | star : Option Nat → CronAtom
  | num : Nat → CronAtom
  | range : Nat → Nat → Option Nat → CronAtom
deriving DecidableEq, Repr

/-- The spec's per-atom semantics: `*` with step `s` matches iff
`value % s == 0` (`s` defaults to 1); `lo-hi/s` matches iff
`lo <= value <= hi` and `(value-lo) % s == 0`; a bare number matches iff
equal. -/
def atomSpecMatches (v : Nat) : CronAtom → Bool
  | .star so => decide (v % so.getD 1 = 0)
  | .num n => decide (v = n)
  | .range lo hi so =>
      decide (lo ≤ v) && decide (v ≤ hi) && decide ((v - lo) % so.getD 1 = 0)

def parseCronBodyL (body : Chars) (step : Option Nat) : Option CronAtom :=
  if body = ['*'] then some (.star step)
  else
    match parseDigits body with
    | some n =>
      match step with
      | none => some (.num n)
      | some _ => none
    | none =>
      match splitChar '-' body with
      | [x, y] =>
        match parseDigits x, parseDigits y with
        | some lo, some hi => some (.range lo hi step)
        | _, _ => none
      | _ => none

def parseCronAtomL (part : Chars) : Option CronAtom :=
  match splitChar '/' part with
  | [body] => parseCronBodyL body none
  | [body, stepCs] =>
    match parseDigits stepCs with
    | some k => if 1 ≤ k then parseCronBodyL body (some k) else none
    | none => none
  | _ => none

/-- A field matches per the spec iff some atom of its comma list matches. -/
def fieldSpecMatches (v : Nat) (atoms : List CronAtom) : Bool :=
  atoms.any (atomSpecMatches v)

-- ### Helper lemmas about the JS string primitives

theorem splitChar_ne_nil (sep : Char) (s : Chars) : splitChar sep s ≠ [] := by
  induction s with
  | nil => simp [splitChar]
  | cons c rest ih =>
    simp only [splitChar]
    split
    · simp
    · cases h : splitChar sep rest with
      | nil => simp
      | cons a t => simp [h]

theorem splitChar_eq_single (sep : Char) (s a : Chars)
    (h : splitChar sep s = [a]) : s = a := by
  induction s generalizing a with
  | nil => simpa [splitChar] using h.symm
  | cons c rest ih =>
    simp only [splitChar] at h
    split at h
    · exact absurd (List.cons.inj h).2 (splitChar_ne_nil sep rest)
    · cases hr : splitChar sep rest with
      | nil => exact absurd hr (splitChar_ne_nil sep rest)
      | cons x t =>
        rw [hr] at h
        obtain ⟨h1, h2⟩ := List.cons.inj h
        subst h2
        rw [ih x hr, h1]

theorem splitChar_eq_pair (sep : Char) (s a b : Chars)
    (h : splitChar sep s = [a, b]) : s = a ++ sep :: b := by
  induction s generalizing a with
  | nil => simp [splitChar] at h
  | cons c rest ih =>
    simp only [splitChar] at h
    split at h
    · rename_i hc
      obtain ⟨h1, h2⟩ := List.cons.inj h
      subst hc
      rw [← h1, List.nil_append]
      rw [splitChar_eq_single c rest b (by simpa using h2)]
    · cases hr : splitChar sep rest with
      | nil => exact absurd hr (splitChar_ne_nil sep rest)
      | cons x t =>
        rw [hr] at h
        obtain ⟨h1, h2⟩ := List.cons.inj h
        subst h1
        have := ih x (by rw [hr, h2])
        simp [this]

theorem parseDigits_eq_some {cs : Chars} {n : Nat}
    (h : parseDigits cs = some n) :
    cs ≠ [] ∧ cs.all Char.isDigit = true ∧ digitsVal cs = n := by
  unfold parseDigits at h
  split at h
  · rename_i hc
    exact ⟨hc.1, hc.2, by simpa using h⟩
  · simp at h

theorem isWhitespace_eq_false_of_isDigit {c : Char}
    (h : c.isDigit = true) : c.isWhitespace = false := by
  cases hw : c.isWhitespace
  · rfl
  · exfalso
    simp only [Char.isWhitespace, Bool.or_eq_true, decide_eq_true_eq] at hw
    casesm* _ ∨ _ <;> (rename_i h1; subst h1; exact absurd h (by decide))

theorem dropWhile_eq_self_of_all {p : Char → Bool} {cs : Chars}
    (h : ∀ c ∈ cs, p c = false) : cs.dropWhile p = cs := by
  cases cs with
  | nil => rfl
  | cons c rest => simp [List.dropWhile, h c (by simp)]

theorem takeWhile_eq_self_of_all {p : Char → Bool} {cs : Chars}
    (h : cs.all p = true) : cs.takeWhile p = cs := by
  induction cs with
  | nil => rfl
  | cons c rest ih =>
    simp only [List.all_cons, Bool.and_eq_true] at h
    simp [List.takeWhile, h.1, ih h.2]

theorem trimChars_eq_self_of_digits {cs : Chars}
    (h : cs.all Char.isDigit = true) : trimChars cs = cs := by
  have hf : ∀ c ∈ cs, Char.isWhitespace c = false := by
    intro c hc
    exact isWhitespace_eq_false_of_isDigit (by
      have := List.all_eq_true.mp h c hc
      simpa using this)
  unfold trimChars
  rw [dropWhile_eq_self_of_all hf,
    dropWhile_eq_self_of_all (fun c hc => hf c (List.mem_reverse.mp hc)),
    List.reverse_reverse]

theorem digit_ne_chars {c : Char} (h : c.isDigit = true) :
    c ≠ '-' ∧ c ≠ '+' ∧ c ≠ '*' := by
  refine ⟨?_, ?_, ?_⟩ <;> (intro he; subst he; simp [Char.isDigit] at h)

theorem jsParseInt_digits {cs : Chars} {n : Nat}
    (h : parseDigits cs = some n) : jsParseInt cs = some (n : Int) := by
  obtain ⟨hne, hall, hval⟩ := parseDigits_eq_some h
  cases cs with
  | nil => exact absurd rfl hne
  | cons c rest =>
    have hc : c.isDigit = true := by
      simp only [List.all_cons, Bool.and_eq_true] at hall
      exact hall.1
    obtain ⟨hm, hp, _⟩ := digit_ne_chars hc
    unfold jsParseInt
    rw [dropWhile_eq_self_of_all (by
      intro x hx
      have : x.isDigit = true := by
        have := List.all_eq_true.mp hall x hx
        simpa using this
      exact isWhitespace_eq_false_of_isDigit this)]
    split
    · rename_i heq
      exact absurd (List.cons.inj heq).1 hm
    · rename_i heq
      exact absurd (List.cons.inj heq).1 hp
    · rw [takeWhile_eq_self_of_all hall, h]
      rfl

theorem jsNumber_digits {cs : Chars} {n : Nat}
    (h : parseDigits cs = some n) : jsNumber cs = some (n : Int) := by
  obtain ⟨hne, hall, hval⟩ := parseDigits_eq_some h
  cases cs with
  | nil => exact absurd rfl hne
  | cons c rest =>
    have hc : c.isDigit = true := by
      simp only [List.all_cons, Bool.and_eq_true] at hall
      exact hall.1
    obtain ⟨hm, hp, _⟩ := digit_ne_chars hc
    unfold jsNumber
    rw [trimChars_eq_self_of_digits hall]
    split
    · rename_i heq; simp at heq
    · rename_i heq
      exact absurd (List.cons.inj heq).1 hm
    · rename_i heq
      exact absurd (List.cons.inj heq).1 hp
    · rw [h]; rfl

theorem intCast_tmod (a b : Nat) :
    Int.tmod (a : Int) (b : Int) = ((a % b : Nat) : Int) := rfl

theorem cronBody_spec {body : Chars} {stepN : Option Nat} {a : CronAtom} (v : Nat)
    (hpos : 1 ≤ stepN.getD 1)
    (hb : parseCronBodyL body stepN = some a) :
    cronAtomRangeMatches body (some ((stepN.getD 1 : Nat) : Int)) (v : Int)
      = atomSpecMatches v a := by
  have hk0 : ((stepN.getD 1 : Nat) : Int) ≠ 0 := by
    simp only [ne_eq, Nat.cast_eq_zero]
    omega
  unfold parseCronBodyL at hb
  by_cases hstar : body = ['*']
  · rw [if_pos hstar] at hb
    obtain rfl : CronAtom.star stepN = a := Option.some.inj hb
    unfold cronAtomRangeMatches
    rw [if_pos hstar]
    simp only [jsMod, jsEq, if_neg hk0, atomSpecMatches, intCast_tmod]
    rw [decide_eq_decide]
    exact Int.natCast_eq_zero
  · rw [if_neg hstar] at hb
    cases hd : parseDigits body with
    | some n =>
      rw [hd] at hb
      cases stepN with
      | none =>
        obtain rfl : CronAtom.num n = a := Option.some.inj hb
        obtain ⟨hne, hall, hval⟩ := parseDigits_eq_some hd
        unfold cronAtomRangeMatches
        rw [if_neg hstar]
        have hnd : body.contains '-' = false := by
          by_contra hcontra
          have hmem : '-' ∈ body := by
            have := Bool.not_eq_false _ |>.mp hcontra
            simpa using this
          have := List.all_eq_true.mp hall _ hmem
          simp at this
        rw [if_neg (by simp only [hnd]; exact Bool.false_ne_true)]
        rw [jsParseInt_digits hd]
        simp only [jsEq, atomSpecMatches]
        rw [decide_eq_decide]
        omega
      | some k => simp at hb
    | none =>
      rw [hd] at hb
      cases hsp : splitChar '-' body with
      | nil => exact absurd hsp (splitChar_ne_nil _ _)
      | cons x rest =>
        cases rest with
        | nil => rw [hsp] at hb; simp at hb
        | cons y rest2 =>
          cases rest2 with
          | cons z rest3 => rw [hsp] at hb; simp at hb
          | nil =>
            cases hx : parseDigits x with
            | none => simp [hsp, hx] at hb
            | some lo =>
              cases hy : parseDigits y with
              | none => simp [hsp, hx, hy] at hb
              | some hi =>
                simp only [hsp, hx, hy] at hb
                obtain rfl : CronAtom.range lo hi stepN = a := Option.some.inj hb
                have hbody : body = x ++ '-' :: y := splitChar_eq_pair _ _ _ _ hsp
                unfold cronAtomRangeMatches
                rw [if_neg hstar]
                have hcont : body.contains '-' = true := by
                  rw [hbody]
                  simp [List.contains_eq_any_beq]
                rw [if_pos hcont, hsp]
                simp only [List.map_cons, List.map_nil]
                rw [jsNumber_digits hx, jsNumber_digits hy]
                simp only [List.getElem?_cons_zero, List.getElem?_cons_succ,
                  Option.getD_some, atomSpecMatches]
                by_cases hlov : lo ≤ v
                · have hsub : (v : Int) - (lo : Int) = ((v - lo : Nat) : Int) := by
                    omega
                  simp only [jsLe, jsSub, jsMod, jsEq, if_neg hk0, hsub, intCast_tmod]
                  have h1 : decide ((lo : Int) ≤ (v : Int)) = decide (lo ≤ v) := by
                    rw [decide_eq_decide]; exact Int.ofNat_le
                  have h2 : decide ((v : Int) ≤ (hi : Int)) = decide (v ≤ hi) := by
                    rw [decide_eq_decide]; exact Int.ofNat_le
                  have h3 : decide ((((v - lo) % stepN.getD 1 : Nat) : Int) = 0)
                      = decide ((v - lo) % stepN.getD 1 = 0) := by
                    rw [decide_eq_decide]; exact Int.natCast_eq_zero
                  rw [h1, h2, h3]
                · have h1 : decide ((lo : Int) ≤ (v : Int)) = false := by
                    simp only [decide_eq_false_iff_not]
                    omega
                  have h2 : decide (lo ≤ v) = false := by
                    simp only [decide_eq_false_iff_not]
                    omega
                  simp only [jsLe, h2]
                  simp only [jsLe] at h1
                  rw [h1]
                  simp

theorem cronAtom_spec {part : Chars} {a : CronAtom} (v : Nat)
    (h : parseCronAtomL part = some a) :
    cronAtomMatchesL part (v : Int) = atomSpecMatches v a := by
  unfold parseCronAtomL at h
  unfold cronAtomMatchesL
  cases hs : splitChar '/' part with
  | nil => exact absurd hs (splitChar_ne_nil _ _)
  | cons body rest =>
    cases rest with
    | nil =>
      rw [hs] at h
      simp only [List.getElem?_cons_zero, List.getElem?_cons_succ, List.getElem?_nil,
        List.headD_cons]
      exact cronBody_spec v (by simp) h
    | cons stepCs rest2 =>
      cases rest2 with
      | cons w rest3 => rw [hs] at h; simp at h
      | nil =>
        rw [hs] at h
        cases hk : parseDigits stepCs with
        | none => simp [hk] at h
        | some k =>
          simp only [hk] at h
          by_cases h1k : 1 ≤ k
          · rw [if_pos h1k] at h
            obtain ⟨hne, _, _⟩ := parseDigits_eq_some hk
            simp only [List.getElem?_cons_zero, List.getElem?_cons_succ, List.headD_cons,
              if_neg hne]
            rw [jsParseInt_digits hk]
            exact cronBody_spec v (by simpa using h1k) h
          · rw [if_neg h1k] at h
            simp at h

theorem matchCronField_spec {field : Chars} {atoms : List CronAtom} (v : Nat)
    (h : (splitChar ',' field).map parseCronAtomL = atoms.map some) :
    matchCronFieldL field (v : Int) = fieldSpecMatches v atoms := by
  unfold matchCronFieldL fieldSpecMatches
  generalize hp : splitChar ',' field = parts at h
  clear hp
  induction parts generalizing atoms with
  | nil =>
    cases atoms with
    | nil => rfl
    | cons a t => simp at h
  | cons p ps ih =>
    cases atoms with
    | nil => simp at h
    | cons a t =>
      simp only [List.map_cons, List.cons.injEq] at h
      simp only [List.any_cons]
      rw [cronAtom_spec v h.1, ih h.2]

theorem checkFields_eq (f0 f1 f2 f3 f4 : Chars) (rest : List Chars) (d : DateParts) :
    checkFields (f0 :: f1 :: f2 :: f3 :: f4 :: rest) d =
      some (matchCronFieldL f0 (d.minute : Int) && matchCronFieldL f1 (d.hour : Int) &&
        matchCronFieldL f2 (d.dayOfMonth : Int) && matchCronFieldL f3 (d.month : Int) &&
        matchCronFieldL f4 (d.dayOfWeek : Int)) := by
  unfold checkFields
  simp only [List.getElem?_cons_zero, List.getElem?_cons_succ]
  cases h0 : matchCronFieldL f0 (d.minute : Int) <;>
    cases h1 : matchCronFieldL f1 (d.hour : Int) <;>
    cases h2 : matchCronFieldL f2 (d.dayOfMonth : Int) <;>
    cases h3 : matchCronFieldL f3 (d.month : Int) <;>
    simp [h0, h1, h2, h3]

theorem checkFields_isSome (fields : List Chars) (d : DateParts)
    (h : 5 ≤ fields.length) : (checkFields fields d).isSome := by
  cases fields with
  | nil => simp at h
  | cons f0 t0 =>
    cases t0 with
    | nil => simp at h
    | cons f1 t1 =>
      cases t1 with
      | nil => simp at h
      | cons f2 t2 =>
        cases t2 with
        | nil => simp at h
        | cons f3 t3 =>
          cases t3 with
          | nil => simp at h
          | cons f4 t4 => rw [checkFields_eq]; rfl

theorem cronMatches_isSome (expr : String) (ms off : Int)
    (h : 5 ≤ (jsSplitWs (trimChars expr.toList)).length) :
    (cronMatches expr ms off).isSome :=
  checkFields_isSome _ _ h

/-- C2: for every 5-field cron expression built from `*`, `*/step`, `N`,
`lo-hi[/step]` atoms (steps positive) and comma lists, and every instant,
`cronMatches` returns true iff each of the five fields — minute, hour,
day-of-month, month, day-of-week — matches its value of the (timezone-shifted)
instant, a field matching iff some atom matches with the spec's atom
semantics; day-of-month and day-of-week are both required (ANDed, no OR-ing). -/
theorem cron_matcher_semantics_C2 (expr : String) (f0 f1 f2 f3 f4 : Chars)
    (a0 a1 a2 a3 a4 : List CronAtom) (ms off : Int)
    (hsplit : jsSplitWs (trimChars expr.toList) = [f0, f1, f2, f3, f4])
    (h0 : (splitChar ',' f0).map parseCronAtomL = a0.map some)
    (h1 : (splitChar ',' f1).map parseCronAtomL = a1.map some)
    (h2 : (splitChar ',' f2).map parseCronAtomL = a2.map some)
    (h3 : (splitChar ',' f3).map parseCronAtomL = a3.map some)
    (h4 : (splitChar ',' f4).map parseCronAtomL = a4.map some) :
    cronMatches expr ms off =
      some (fieldSpecMatches (datePartsAt ms off).minute a0 &&
        fieldSpecMatches (datePartsAt ms off).hour a1 &&
        fieldSpecMatches (datePartsAt ms off).dayOfMonth a2 &&
        fieldSpecMatches (datePartsAt ms off).month a3 &&
        fieldSpecMatches (datePartsAt ms off).dayOfWeek a4) := by
  unfold cronMatches
  rw [hsplit, checkFields_eq]
  rw [matchCronField_spec (datePartsAt ms off).minute h0,
    matchCronField_spec (datePartsAt ms off).hour h1,
    matchCronField_spec (datePartsAt ms off).dayOfMonth h2,
    matchCronField_spec (datePartsAt ms off).month h3,
    matchCronField_spec (datePartsAt ms off).dayOfWeek h4]

theorem cron_matcher_semantics_C2_witness :
    cronMatches "*/15 * * * *" 1800000 0 = some true ∧
    cronMatches "*/15 * * * *" 1860000 0 = some false := by
  constructor
  · exact (cron_matcher_semantics_C2 "*/15 * * * *"
      "*/15".toList "*".toList "*".toList "*".toList "*".toList
      [CronAtom.star (some 15)] [CronAtom.star none] [CronAtom.star none]
      [CronAtom.star none] [CronAtom.star none] 1800000 0
      (by decide) (by decide) (by decide) (by decide) (by decide) (by decide)).trans
      (by decide)
  · exact (cron_matcher_semantics_C2 "*/15 * * * *"
      "*/15".toList "*".toList "*".toList "*".toList "*".toList
      [CronAtom.star (some 15)] [CronAtom.star none] [CronAtom.star none]
      [CronAtom.star none] [CronAtom.star none] 1860000 0
      (by decide) (by decide) (by decide) (by decide) (by decide) (by decide)).trans
      (by decide)

theorem nextCronLoop_spec (expr : String) (off : Int)
    (htot : ∀ ms : Int, (cronMatches expr ms off).isSome) :
    ∀ (fuel : Nat) (d : Int), ∃ k : Nat, k ≤ fuel ∧
      nextCronLoop expr off fuel d = some (d + k * 60000) ∧
      (∀ j : Nat, j < k → cronMatches expr (d + j * 60000) off = some false) ∧
      (k < fuel → cronMatches expr (d + k * 60000) off = some true) := by
  intro fuel
  induction fuel with
  | zero =>
    intro d
    exact ⟨0, le_refl 0, by simp [nextCronLoop], fun j hj => absurd hj (by omega),
      fun h => absurd h (by omega)⟩
  | succ n ih =>
    intro d
    cases hm : cronMatches expr d off with
    | none =>
      have := htot d
      rw [hm] at this
      simp at this
    | some b =>
      cases b with
      | true =>
        refine ⟨0, by omega, ?_, fun j hj => absurd hj (by omega), fun _ => by simpa using hm⟩
        unfold nextCronLoop
        rw [hm]
        simp
      | false =>
        obtain ⟨k, hk, heq, hall, hlast⟩ := ih (d + 60000)
        have harith : ∀ i : Nat, d + 60000 + (i : Int) * 60000 = d + ((i + 1 : Nat) : Int) * 60000 := by
          intro i
          push_cast
          ring
        refine ⟨k + 1, by omega, ?_, ?_, ?_⟩
        · unfold nextCronLoop
          rw [hm]
          simp only []
          rw [heq, harith k]
        · intro j hj
          cases j with
          | zero => simpa using hm
          | succ i =>
            have := hall i (by omega)
            rw [harith i] at this
            exact this
        · intro hlt
          have := hlast (by omega)
          rw [harith k] at this
          exact this

/-- C3 (amended): for every cron expression with at least five fields and
every instant `after`, `nextCronMatch` starts at the minute after `after`
(seconds and milliseconds zeroed), scans forward one minute at a time against
the timezone-shifted instant for at most 2880 probes, always returns an
instant strictly greater than `after`, and the returned instant matches the
expression unless the 48h bound was hit — in which case the returned instant
is the one *one minute past* the last probed instant (the last probe is
`start + 2879` minutes, the returned value `start + 2880` minutes). -/
theorem nextCronMatch_scan_C3 (expr : String) (after off : Int)
    (hf : 5 ≤ (jsSplitWs (trimChars expr.toList)).length) :
    ∃ k : Nat, k ≤ 2880 ∧
      nextCronMatch expr after off = some (cronScanStart after + k * 60000) ∧
      after < cronScanStart after + k * 60000 ∧
      (∀ j : Nat, j < k → cronMatches expr (cronScanStart after + j * 60000) off = some false) ∧
      (k < 2880 → cronMatches expr (cronScanStart after + k * 60000) off = some true) := by
  have htot : ∀ ms : Int, (cronMatches expr ms off).isSome := fun ms =>
    cronMatches_isSome expr ms off hf
  obtain ⟨k, hk, heq, hall, hlast⟩ := nextCronLoop_spec expr off htot 2880 (cronScanStart after)
  refine ⟨k, hk, heq, ?_, hall, hlast⟩
  have h1 : 0 ≤ after.emod 60000 := Int.emod_nonneg _ (by norm_num)
  have h2 : after.emod 60000 < 60000 := Int.emod_lt_of_pos _ (by norm_num)
  have h3 : (0 : Int) ≤ (k : Int) * 60000 := by positivity
  unfold cronScanStart
  omega

theorem nextCronMatch_scan_C3_witness :
    5 ≤ (jsSplitWs (trimChars "* * * * *".toList)).length ∧
    (∃ k : Nat, k ≤ 2880 ∧
      nextCronMatch "* * * * *" 90000 0 = some (cronScanStart 90000 + k * 60000) ∧
      (90000 : Int) < cronScanStart 90000 + k * 60000 ∧
      (∀ j : Nat, j < k → cronMatches "* * * * *" (cronScanStart 90000 + j * 60000) 0 = some false) ∧
      (k < 2880 → cronMatches "* * * * *" (cronScanStart 90000 + k * 60000) 0 = some true)) :=
  ⟨by decide, nextCronMatch_scan_C3 "* * * * *" 90000 0 (by decide)⟩

set_option maxRecDepth 10000 in
/-- C3 counterexample: the minute field `60` never matches a real minute
(0..59), so with `after = 0` the loop exhausts its 2880 probes.  The probes
are the instants `60000 * (1 + j)` for `j < 2880`; the *last probed* instant
is `172800000` (minute 2880).  The code then returns `172860000` (minute
2881), one minute *past* the last probed instant — the claim "the last probed
instant is returned" is false (and the returned instant does not match the
expression either). -/
theorem nextCronMatch_last_probe_counterexample_C3 :
    nextCronMatch "60 * * * *" 0 0 = some 172860000 ∧
    cronMatches "60 * * * *" 172800000 0 = some false ∧
    cronMatches "60 * * * *" 172860000 0 = some false ∧
    (172860000 : Int) ≠ 172800000 := by
  refine ⟨by decide, by decide, by decide, by decide⟩

-- ### C10: malformed fields are inert, never a crash

/-- The ways an atom can fail to denote any matcher in `matchCronField`:
its range part is non-`*`, dash-free and `parseInt`s to `NaN` (non-numeric
text, an empty list element); or it is `*`/a dashed range with a `NaN`
endpoint or an explicitly given non-numeric step. -/
def cronRangeDead (range : Chars) (step : Option Int) : Bool :=
  (decide (range ≠ ['*']) && !(range.contains '-') && (jsParseInt range).isNone) ||
  (decide (range = ['*']) && step.isNone) ||
  (range.contains '-' &&
    ((((splitChar '-' range).map jsNumber)[0]?.getD none).isNone ||
     (((splitChar '-' range).map jsNumber)[1]?.getD none).isNone ||
     step.isNone))

def cronAtomDead (part : Chars) : Bool :=
  let comps := splitChar '/' part
  let step : Option Int :=
    match comps[1]? with
    | some stepCs => if stepCs = [] then some 1 else jsParseInt stepCs
    | none => some 1
  cronRangeDead (comps.headD []) step

theorem cronRangeDead_no_match {range : Chars} {step : Option Int}
    (h : cronRangeDead range step = true) (v : Int) :
    cronAtomRangeMatches range step v = false := by
  unfold cronRangeDead at h
  unfold cronAtomRangeMatches
  simp only [Bool.or_eq_true, Bool.and_eq_true, decide_eq_true_eq,
    Option.isNone_iff_eq_none, Bool.not_eq_true'] at h
  rcases h with (⟨⟨hne, hnd⟩, hpi⟩ | ⟨hstar, hstep⟩) | ⟨hd, hcase⟩
  · rw [if_neg hne, if_neg (by rw [hnd]; exact Bool.false_ne_true)]
    simp [jsEq, hpi]
  · rw [if_pos hstar, hstep]
    rfl
  · have hns : ¬ range = ['*'] := by
      intro he
      rw [he] at hd
      exact absurd hd (by decide)
    rw [if_neg hns, if_pos hd]
    rcases hcase with (h0 | h1) | hs
    · simp only [h0, jsLe, Bool.false_and]
    · simp only [h1]
      simp [jsLe]
    · simp only [hs]
      simp [jsMod, jsEq]

theorem cronAtom_dead_no_match {part : Chars}
    (h : cronAtomDead part = true) (v : Int) :
    cronAtomMatchesL part v = false := by
  unfold cronAtomDead at h
  unfold cronAtomMatchesL
  exact cronRangeDead_no_match h v

theorem matchCronField_dead {field : Chars}
    (h : ∀ part ∈ splitChar ',' field, cronAtomDead part = true) (v : Int) :
    matchCronFieldL field v = false := by
  unfold matchCronFieldL
  rw [List.any_eq_false]
  intro p hp
  simp [cronAtom_dead_no_match (h p hp) v]

theorem exists_five_fields {l : List Chars} (h : 5 ≤ l.length) :
    ∃ f0 f1 f2 f3 f4 rest, l = f0 :: f1 :: f2 :: f3 :: f4 :: rest := by
  cases l with
  | nil => simp at h
  | cons f0 t0 =>
    cases t0 with
    | nil => simp at h
    | cons f1 t1 =>
      cases t1 with
      | nil => simp at h
      | cons f2 t2 =>
        cases t2 with
        | nil => simp at h
        | cons f3 t3 =>
          cases t3 with
          | nil => simp at h
          | cons f4 t4 => exact ⟨f0, f1, f2, f3, f4, t4, rfl⟩

/-- C10: for every expression with at least five whitespace-separated fields,
`cronMatches` is total (returns a value, never throws), and a field none of
whose atoms denotes a matcher — non-numeric text, an empty list element, a
non-numeric step — matches no value at all, so such a schedule silently never
fires instead of crashing the scheduler tick. -/
theorem cron_total_malformed_inert_C10 (expr : String) (ms off : Int) (f : Chars) (i : Nat)
    (hi : i < 5)
    (hf : 5 ≤ (jsSplitWs (trimChars expr.toList)).length)
    (hfield : (jsSplitWs (trimChars expr.toList))[i]? = some f)
    (hdead : ∀ part ∈ splitChar ',' f, cronAtomDead part = true) :
    (cronMatches expr ms off).isSome ∧
    (∀ v : Int, matchCronFieldL f v = false) ∧
    cronMatches expr ms off = some false := by
  refine ⟨cronMatches_isSome expr ms off hf, fun v => matchCronField_dead hdead v, ?_⟩
  obtain ⟨f0, f1, f2, f3, f4, rest, hsplit⟩ := exists_five_fields hf
  unfold cronMatches
  rw [hsplit, checkFields_eq]
  rw [hsplit] at hfield
  interval_cases i <;>
    simp only [List.getElem?_cons_zero, List.getElem?_cons_succ] at hfield <;>
    (obtain rfl := Option.some.inj hfield) <;>
    simp [matchCronField_dead hdead]

theorem cron_total_malformed_inert_C10_witness :
    cronAtomDead "abc".toList = true ∧
    cronMatches "abc * * * *" 1800000 0 = some false :=
  ⟨by decide,
    (cron_total_malformed_inert_C10 "abc * * * *" 1800000 0 "abc".toList 0
      (by decide) (by decide) (by decide) (by decide)).2.2⟩

-- ### Exclusion windows and heartbeat scheduling (daemon main loop)

/-- `HeartbeatExcludeWindow` from config.ts: `{days?, start, end}` with
`start`/`end` as `"HH:MM"` strings.  `days` entries are 0..6 after config
parsing. -/
structure ExcludeWindow where
  days : List Nat
  start : String
  «end» : String
deriving DecidableEq, Repr

/-- `HeartbeatConfig` from config.ts (interval in minutes). -/
structure HeartbeatConfig where
  enabled : Bool
  interval : Int
  prompt : String
  excludeWindows : List ExcludeWindow
deriving DecidableEq, Repr

def ALL_DAYS : List Nat := [0, 1, 2, 3, 4, 5, 6]

/-- `parseClockMinutes` (daemon main loop): match `^([01]\d|2[0-3]):([0-5]\d)$`
and return `HH * 60 + MM`. -/
def parseClockMinutes (s : String) : Option Nat :=
  match s.toList with
  | [h1, h2, ':', m1, m2] =>
    if ((h1 = '0' ∨ h1 = '1') ∧ h2.isDigit = true ∨ h1 = '2' ∧ '0' ≤ h2 ∧ h2 ≤ '3') ∧
        ('0' ≤ m1 ∧ m1 ≤ '5') ∧ m2.isDigit = true then
      some ((digitVal h1 * 10 + digitVal h2) * 60 + (digitVal m1 * 10 + digitVal m2))
    else none
  | _ => none

structure DayMinute where
  day : Nat
  minute : Nat
deriving DecidableEq, Repr

/-- Modelled from the spec: `getDayAndMinuteAtOffset` (TimezoneResolver, whose
source file is not in the corpus — only its callers are) shifts the instant by
the configured minute offset and returns the local day-of-week (0 = Sunday)
and minute-of-day (0..1439). -/
def getDayAndMinuteAtOffset (atMs offsetMinutes : Int) : DayMinute :=
  let l := atMs + offsetMinutes * 60000
  { day := ((l.fdiv 86400000 + 4).emod 7).toNat
    minute := ((l.fdiv 60000).emod 1440).toNat }

/-- The per-window test inside `isHeartbeatExcludedAt`'s loop: unparseable
times skip the window (`continue`), empty `days` defaults to all days,
`start < end` is a same-day window, `start == end` blocks the whole listed
days, and `start > end` wraps midnight — the portion after midnight is
attributed to the previous day's entry. -/
def windowExcludes (lt : DayMinute) (w : ExcludeWindow) : Bool :=
  match parseClockMinutes w.start, parseClockMinutes w.«end» with
  | some s, some e =>
    let days := if w.days = [] then ALL_DAYS else w.days
    if s < e then
      days.contains lt.day && decide (s ≤ lt.minute) && decide (lt.minute < e)
    else if s = e then
      days.contains lt.day
    else
      (decide (s ≤ lt.minute) && days.contains lt.day) ||
      (decide (lt.minute < e) && days.contains ((lt.day + 6) % 7))
  | _, _ => false

/-- `isHeartbeatExcludedAt` (daemon main loop, lines 113-140). -/
def isHeartbeatExcludedAt (config : HeartbeatConfig) (timezoneOffsetMinutes atMs : Int) : Bool :=
  if config.excludeWindows = [] then false
  else
    config.excludeWindows.any (windowExcludes (getDayAndMinuteAtOffset atMs timezoneOffsetMinutes))

def heartbeatLoop (config : HeartbeatConfig) (tz interval : Int) : Nat → Int → Int
  | 0, candidate => candidate
  | fuel + 1, candidate =>
    if isHeartbeatExcludedAt config tz candidate then
      heartbeatLoop config tz interval fuel (candidate + interval)
    else candidate

/-- `nextAllowedHeartbeatAt` (daemon main loop, lines 142-158): clamp the
interval to at least 60000 ms (`Math.round` is the identity on the integral
intervals modelled here), start at `fromMs + interval`, and advance by a full
interval while excluded, up to the 20000-iteration guard. -/
def nextAllowedHeartbeatAt (config : HeartbeatConfig)
    (timezoneOffsetMinutes intervalMs fromMs : Int) : Int :=
  let interval := max 60000 intervalMs
  heartbeatLoop config timezoneOffsetMinutes interval 20000 (fromMs + interval)

def mondayNightWindow : ExcludeWindow :=
  { days := [1], start := "23:00", «end» := "07:00" }

def mondayNightConfig : HeartbeatConfig :=
  { enabled := true, interval := 15, prompt := "", excludeWindows := [mondayNightWindow] }

def scenario1Config : HeartbeatConfig :=
  { enabled := true, interval := 15, prompt := "",
    excludeWindows := [{ days := [0, 1, 2, 3, 4, 5, 6], start := "00:00", «end» := "06:00" }] }

example : parseClockMinutes "23:00" = some 1380 := by decide
example : parseClockMinutes "07:00" = some 420 := by decide
example : parseClockMinutes "7:00" = none := by decide
example : parseClockMinutes "24:00" = none := by decide
example : getDayAndMinuteAtOffset 430200000 0 = { day := 1, minute := 1410 } := by decide

theorem singleWindow_excluded (w : ExcludeWindow) (off atMs : Int) :
    isHeartbeatExcludedAt ⟨true, 15, "", [w]⟩ off atMs
      = windowExcludes (getDayAndMinuteAtOffset atMs off) w := by
  unfold isHeartbeatExcludedAt
  rw [if_neg (by simp)]
  simp

theorem window_wrap_iff (w : ExcludeWindow) (off atMs : Int) (s e : Nat)
    (hs : parseClockMinutes w.start = some s)
    (he : parseClockMinutes w.«end» = some e)
    (hdays : w.days ≠ [])
    (hlt : e < s) :
    (isHeartbeatExcludedAt ⟨true, 15, "", [w]⟩ off atMs = true ↔
      (s ≤ (getDayAndMinuteAtOffset atMs off).minute ∧
        (getDayAndMinuteAtOffset atMs off).day ∈ w.days) ∨
      ((getDayAndMinuteAtOffset atMs off).minute < e ∧
        ((getDayAndMinuteAtOffset atMs off).day + 6) % 7 ∈ w.days)) := by
  rw [singleWindow_excluded]
  unfold windowExcludes
  rw [hs, he]
  simp only [if_neg hdays]
  rw [if_neg (by omega), if_neg (by omega)]
  simp [List.elem_iff, List.contains, and_comm]

theorem window_sameday_iff (w : ExcludeWindow) (off atMs : Int) (s e : Nat)
    (hs : parseClockMinutes w.start = some s)
    (he : parseClockMinutes w.«end» = some e)
    (hdays : w.days ≠ [])
    (hlt : s < e) :
    (isHeartbeatExcludedAt ⟨true, 15, "", [w]⟩ off atMs = true ↔
      (getDayAndMinuteAtOffset atMs off).day ∈ w.days ∧
      s ≤ (getDayAndMinuteAtOffset atMs off).minute ∧
      (getDayAndMinuteAtOffset atMs off).minute < e) := by
  rw [singleWindow_excluded]
  unfold windowExcludes
  rw [hs, he]
  simp only [if_neg hdays]
  rw [if_pos hlt]
  simp [List.elem_iff, List.contains, and_assoc]

theorem window_wholeday_iff (w : ExcludeWindow) (off atMs : Int) (s e : Nat)
    (hs : parseClockMinutes w.start = some s)
    (he : parseClockMinutes w.«end» = some e)
    (hdays : w.days ≠ [])
    (heq : s = e) :
    (isHeartbeatExcludedAt ⟨true, 15, "", [w]⟩ off atMs = true ↔
      (getDayAndMinuteAtOffset atMs off).day ∈ w.days) := by
  rw [singleWindow_excluded]
  unfold windowExcludes
  rw [hs, he]
  simp only [if_neg hdays]
  rw [if_neg (by omega), if_pos (by omega)]
  simp [List.elem_iff, List.contains]

/-- C4: for a window whose parsed `start` is greater than its parsed `end`
(midnight wrap) the instant is excluded iff (minute ≥ start and the local day
is in `days`) or (minute < end and the previous day `(day+6) % 7` is in
`days`); for `start < end` excluded iff day ∈ days and start ≤ minute < end;
for `start = end` excluded iff day ∈ days.  In particular the window
`{start := "23:00", end := "07:00", days := [1]}` excludes Monday 23:30
(430200000 ms) and Tuesday 06:30 (455400000 ms) but not Tuesday 23:30
(516600000 ms). -/
theorem exclusion_window_semantics_C4 :
    (∀ (w : ExcludeWindow) (off atMs : Int) (s e : Nat),
      parseClockMinutes w.start = some s → parseClockMinutes w.«end» = some e →
      w.days ≠ [] → e < s →
      (isHeartbeatExcludedAt ⟨true, 15, "", [w]⟩ off atMs = true ↔
        (s ≤ (getDayAndMinuteAtOffset atMs off).minute ∧
          (getDayAndMinuteAtOffset atMs off).day ∈ w.days) ∨
        ((getDayAndMinuteAtOffset atMs off).minute < e ∧
          ((getDayAndMinuteAtOffset atMs off).day + 6) % 7 ∈ w.days))) ∧
    (∀ (w : ExcludeWindow) (off atMs : Int) (s e : Nat),
      parseClockMinutes w.start = some s → parseClockMinutes w.«end» = some e →
      w.days ≠ [] → s < e →
      (isHeartbeatExcludedAt ⟨true, 15, "", [w]⟩ off atMs = true ↔
        (getDayAndMinuteAtOffset atMs off).day ∈ w.days ∧
        s ≤ (getDayAndMinuteAtOffset atMs off).minute ∧
        (getDayAndMinuteAtOffset atMs off).minute < e)) ∧
    (∀ (w : ExcludeWindow) (off atMs : Int) (s e : Nat),
      parseClockMinutes w.start = some s → parseClockMinutes w.«end» = some e →
      w.days ≠ [] → s = e →
      (isHeartbeatExcludedAt ⟨true, 15, "", [w]⟩ off atMs = true ↔
        (getDayAndMinuteAtOffset atMs off).day ∈ w.days)) ∧
    isHeartbeatExcludedAt mondayNightConfig 0 430200000 = true ∧
    isHeartbeatExcludedAt mondayNightConfig 0 455400000 = true ∧
    isHeartbeatExcludedAt mondayNightConfig 0 516600000 = false := by
  refine ⟨?_, ?_, ?_, by decide, by decide, by decide⟩
  · intro w off atMs s e hs he hd hlt
    exact window_wrap_iff w off atMs s e hs he hd hlt
  · intro w off atMs s e hs he hd hlt
    exact window_sameday_iff w off atMs s e hs he hd hlt
  · intro w off atMs s e hs he hd heq
    exact window_wholeday_iff w off atMs s e hs he hd heq

theorem exclusion_window_semantics_C4_witness :
    isHeartbeatExcludedAt mondayNightConfig 0 430200000 = true ∧
    isHeartbeatExcludedAt mondayNightConfig 0 455400000 = true ∧
    isHeartbeatExcludedAt mondayNightConfig 0 516600000 = false :=
  ⟨exclusion_window_semantics_C4.2.2.2.1,
    exclusion_window_semantics_C4.2.2.2.2.1,
    exclusion_window_semantics_C4.2.2.2.2.2⟩

theorem heartbeatLoop_spec (config : HeartbeatConfig) (tz interval : Int) :
    ∀ (fuel : Nat) (cand : Int), ∃ k : Nat, k ≤ fuel ∧
      heartbeatLoop config tz interval fuel cand = cand + k * interval ∧
      (∀ j : Nat, j < k → isHeartbeatExcludedAt config tz (cand + j * interval) = true) ∧
      (k < fuel → isHeartbeatExcludedAt config tz (cand + k * interval) = false) := by
  intro fuel
  induction fuel with
  | zero =>
    intro cand
    exact ⟨0, le_refl 0, by simp [heartbeatLoop], fun j hj => absurd hj (by omega),
      fun h => absurd h (by omega)⟩
  | succ n ih =>
    intro cand
    cases hx : isHeartbeatExcludedAt config tz cand with
    | false =>
      refine ⟨0, by omega, ?_, fun j hj => absurd hj (by omega), fun _ => by simpa using hx⟩
      unfold heartbeatLoop
      rw [hx]
      simp
    | true =>
      obtain ⟨k, hk, heq, hall, hlast⟩ := ih (cand + interval)
      have harith : ∀ i : Nat, cand + interval + (i : Int) * interval
          = cand + ((i + 1 : Nat) : Int) * interval := by
        intro i
        push_cast
        ring
      refine ⟨k + 1, by omega, ?_, ?_, ?_⟩
      · unfold heartbeatLoop
        rw [hx]
        simp only [if_pos trivial]
        rw [heq, harith k]
      · intro j hj
        cases j with
        | zero => simpa using hx
        | succ i =>
          have := hall i (by omega)
          rw [harith i] at this
          exact this
      · intro hlt
        have := hlast (by omega)
        rw [harith k] at this
        exact this

/-- C5: `nextAllowedHeartbeatAt` clamps the interval to at least 60000 ms,
starts at `fromMs + interval`, and advances by a full interval while the
candidate is excluded, bounded by the 20000-iteration guard (after which the
last candidate is returned even if excluded).  With a 15-minute interval, an
all-days `00:00`-`06:00` exclusion window and `fromMs` at 23:50, the first
candidate 00:05 is excluded and the function steps by 15 minutes until it
returns 06:05 (108300000 ms). -/
theorem heartbeat_next_allowed_C5 :
    (∀ (config : HeartbeatConfig) (tz intervalMs fromMs : Int),
      ∃ k : Nat, k ≤ 20000 ∧
        nextAllowedHeartbeatAt config tz intervalMs fromMs
          = fromMs + max 60000 intervalMs + k * max 60000 intervalMs ∧
        (∀ j : Nat, j < k → isHeartbeatExcludedAt config tz
          (fromMs + max 60000 intervalMs + j * max 60000 intervalMs) = true) ∧
        (k < 20000 → isHeartbeatExcludedAt config tz
          (fromMs + max 60000 intervalMs + k * max 60000 intervalMs) = false)) ∧
    nextAllowedHeartbeatAt scenario1Config 0 900000 85800000 = 108300000 := by
  constructor
  · intro config tz intervalMs fromMs
    obtain ⟨k, hk, heq, hall, hlast⟩ :=
      heartbeatLoop_spec config tz (max 60000 intervalMs) 20000 (fromMs + max 60000 intervalMs)
    exact ⟨k, hk, heq, hall, hlast⟩
  · decide

theorem heartbeat_next_allowed_C5_witness :
    nextAllowedHeartbeatAt scenario1Config 0 900000 85800000 = 108300000 :=
  heartbeat_next_allowed_C5.2

-- ### The SessionRunner serial queue (runner.ts:26-32)
--
-- ```
-- let queue: Promise<unknown> = Promise.resolve();
-- function enqueue<T>(fn: () => Promise<T>): Promise<T> {
--   const task = queue.then(fn, fn);
--   queue = task.catch(() => {});
--   return task;
-- }
-- ```
--
-- The event loop is single threaded, so the queue's behaviour is fully
-- described by how each enqueue chains on the settled state of the previous
-- queue promise: `.then(fn, fn)` runs `fn` both when the predecessor
-- fulfilled and when it rejected, and `.catch(() => {})` makes the stored
-- queue promise always fulfil.  A task is a label plus the outcome its body
-- settles with (`Except.error` = rejection).

structure TaskSpec (ε α : Type) where
  label : Nat
  outcome : Except ε α

/-- `queue.then(fn, fn)`: the task body runs (its label is recorded) no
matter how the previous queue promise settled, and the task promise settles
with the body's outcome. -/
def thenBoth {ε ε' α : Type} (prev : Except ε Unit) (t : TaskSpec ε' α) :
    List Nat × Except ε' α :=
  match prev with
  | .ok _ => ([t.label], t.outcome)
  | .error _ => ([t.label], t.outcome)

/-- `task.catch(() => {})`: fulfilled either way. -/
def catchNoop {ε α : Type} (p : Except ε α) : Except ε Unit :=
  match p with
  | .ok _ => .ok ()
  | .error _ => .ok ()

def enqueueStep {ε α : Type} (q : Except ε Unit) (t : TaskSpec ε α) :
    List Nat × Except ε α × Except ε Unit :=
  let r := thenBoth q t
  (r.1, r.2, catchNoop r.2)

def runQueueGo {ε α : Type} (q : Except ε Unit) :
    List (TaskSpec ε α) → List Nat × List (Except ε α) × Except ε Unit
  | [] => ([], [], q)
  | t :: ts =>
    let s := enqueueStep q t
    let r := runQueueGo s.2.2 ts
    (s.1 ++ r.1, s.2.1 :: r.2.1, r.2.2)

/-- Run a list of enqueued tasks against the initially resolved queue. -/
def runQueue {ε α : Type} (tasks : List (TaskSpec ε α)) :
    List Nat × List (Except ε α) × Except ε Unit :=
  runQueueGo (Except.ok ()) tasks

theorem catchNoop_eq {ε α : Type} (p : Except ε α) : catchNoop p = Except.ok () := by
  cases p <;> rfl

theorem runQueueGo_ok {ε α : Type} (tasks : List (TaskSpec ε α)) :
    runQueueGo (Except.ok ()) tasks
      = (tasks.map TaskSpec.label, tasks.map TaskSpec.outcome, Except.ok ()) := by
  induction tasks with
  | nil => rfl
  | cons t ts ih =>
    simp [runQueueGo, enqueueStep, thenBoth, catchNoop_eq, ih]

/-- C1: the serial queue runs every enqueued task exactly once, in
submission order, each task settling with its own outcome; a rejected task
does not remove any later task from the trace, and the stored queue promise
is fulfilled after every step (`.then(fn, fn)` runs the body on either
settlement of the predecessor, so a failure cannot poison the chain). -/
theorem queue_fifo_C1 (ε α : Type) (tasks : List (TaskSpec ε α)) :
    (runQueue tasks).1 = tasks.map TaskSpec.label ∧
    (runQueue tasks).2.1 = tasks.map TaskSpec.outcome ∧
    (runQueue tasks).2.2 = Except.ok () ∧
    (∀ (q : Except ε Unit) (t : TaskSpec ε α),
      (enqueueStep q t).1 = [t.label] ∧ (enqueueStep q t).2.2 = Except.ok ()) := by
  refine ⟨?_, ?_, ?_, ?_⟩
  · rw [runQueue, runQueueGo_ok]
  · rw [runQueue, runQueueGo_ok]
  · rw [runQueue, runQueueGo_ok]
  · intro q t
    cases q <;> exact ⟨rfl, catchNoop_eq _⟩

-- ### Rate-limit detection and fallback (runner.ts:23, 34-49, 262-272)

structure ModelConfig where
  model : String
  api : String
deriving DecidableEq, Repr

/-- `sameModelConfig` (runner.ts:43-45): compare trimmed lower-cased model
names and trimmed api tokens. -/
def sameModelConfig (a b : ModelConfig) : Bool :=
  (trimChars a.model.toList).map Char.toLower == (trimChars b.model.toList).map Char.toLower &&
    trimChars a.api.toList == trimChars b.api.toList

/-- `hasModelConfig` (runner.ts:47-49). -/
def hasModelConfig (v : ModelConfig) : Bool :=
  0 < (trimChars v.model.toList).length || 0 < (trimChars v.api.toList).length

def apostropheChar : Char := Char.ofNat 39

def rightQuoteChar : Char := Char.ofNat 8217

/-- The fixed phrase of `RATE_LIMIT_PATTERN`, parameterised by which
apostrophe character the output used. -/
def rateLimitNeedle (apos : Char) : Chars :=
  ['y', 'o', 'u', apos, 'v', 'e', ' ', 'h', 'i', 't', ' ',
   'y', 'o', 'u', 'r', ' ', 'l', 'i', 'm', 'i', 't']

def startsWithSeq : Chars → Chars → Bool
  | [], _ => true
  | _ :: _, [] => false
  | n :: ns, h :: hs => n == h && startsWithSeq ns hs

def containsSeq (needle : Chars) : Chars → Bool
  | [] => startsWithSeq needle []
  | h :: hs => startsWithSeq needle (h :: hs) || containsSeq needle hs

/-- `RATE_LIMIT_PATTERN.test` (runner.ts:23): case-insensitive search for
the phrase with either a straight or a typographic apostrophe. -/
def rateLimitTest (s : Chars) : Bool :=
  containsSeq (rateLimitNeedle apostropheChar) (s.map Char.toLower) ||
    containsSeq (rateLimitNeedle rightQuoteChar) (s.map Char.toLower)

/-- `extractRateLimitMessage` (runner.ts:34-41): stdout first, then stderr;
a candidate is returned trimmed, only if non-empty and matching. -/
def extractRateLimitMessage (stdout stderr : String) : Option Chars :=
  if trimChars stdout.toList ≠ [] ∧ rateLimitTest (trimChars stdout.toList) = true then
    some (trimChars stdout.toList)
  else if trimChars stderr.toList ≠ [] ∧ rateLimitTest (trimChars stderr.toList) = true then
    some (trimChars stderr.toList)
  else none

structure ExecOut where
  rawStdout : String
  stderr : String
  exitCode : Int
deriving DecidableEq, Repr

structure RunResult where
  stdout : Chars
  stderr : String
  exitCode : Int
deriving DecidableEq, Repr

/-- The fields `execClaude` reads out of `JSON.parse(rawStdout)`; the parser
itself is an external library primitive and is passed in as an oracle
(`none` models a thrown parse error). -/
structure JsonOut where
  sessionId : Option String
  result : Option String
deriving DecidableEq, Repr

/-- The post-invocation result shaping of `execClaude` (runner.ts:274-308):
stdout starts as the raw output, is replaced by the rate-limit message if one
is present, and otherwise, on exit code 0, by `json.result ?? ""` when the
JSON parses (raw stdout kept on parse failure). -/
def postProcess (jsonParse : String → Option JsonOut) (exec : ExecOut) : RunResult :=
  let rateLimitMessage := extractRateLimitMessage exec.rawStdout exec.stderr
  let stdout0 : Chars :=
    match rateLimitMessage with
    | some m => m
    | none => exec.rawStdout.toList
  let stdout :=
    if rateLimitMessage = none ∧ exec.exitCode = 0 then
      match jsonParse exec.rawStdout with
      | some j => (j.result.getD "").toList
      | none => stdout0
    else stdout0
  { stdout := stdout, stderr := exec.stderr, exitCode := exec.exitCode }

/-- The primary/fallback selection of `execClaude` (runner.ts:262-272):
invoke once under the primary configuration; if the raw output carries the
rate-limit signature and the fallback configuration is non-empty and distinct
from the primary, invoke the identical request once more under the fallback.
Returns the shaped result, the `usedFallback` flag recorded in the audit log,
and the trace of configurations invoked, in order. -/
def execClaudeModel (runOnce : ModelConfig → ExecOut)
    (jsonParse : String → Option JsonOut) (primary fallback : ModelConfig) :
    RunResult × Bool × List ModelConfig :=
  let exec0 := runOnce primary
  let primaryRateLimit := extractRateLimitMessage exec0.rawStdout exec0.stderr
  if primaryRateLimit.isSome = true ∧ hasModelConfig fallback = true ∧
      sameModelConfig primary fallback = false then
    (postProcess jsonParse (runOnce fallback), true, [primary, fallback])
  else
    (postProcess jsonParse exec0, false, [primary])

/-- C6: `execClaude` retries exactly once under the fallback credentials iff
the primary attempt's raw output matches the rate-limit signature, the
fallback configuration is non-empty, and it differs from the primary; in the
retry case the returned `RunResult` is the shaped output of the fallback
attempt (same stderr and exit code as the fallback invocation) and
`usedFallback` is recorded; otherwise a single invocation happens and the
result is shaped from the primary attempt. -/
theorem rate_limit_fallback_C6 (runOnce : ModelConfig → ExecOut)
    (jsonParse : String → Option JsonOut) (primary fallback : ModelConfig) :
    ((extractRateLimitMessage (runOnce primary).rawStdout (runOnce primary).stderr).isSome = true ∧
        hasModelConfig fallback = true ∧ sameModelConfig primary fallback = false →
      execClaudeModel runOnce jsonParse primary fallback
          = (postProcess jsonParse (runOnce fallback), true, [primary, fallback]) ∧
        (execClaudeModel runOnce jsonParse primary fallback).1.stderr = (runOnce fallback).stderr ∧
        (execClaudeModel runOnce jsonParse primary fallback).1.exitCode = (runOnce fallback).exitCode) ∧
    (¬ ((extractRateLimitMessage (runOnce primary).rawStdout (runOnce primary).stderr).isSome = true ∧
        hasModelConfig fallback = true ∧ sameModelConfig primary fallback = false) →
      execClaudeModel runOnce jsonParse primary fallback
          = (postProcess jsonParse (runOnce primary), false, [primary])) := by
  constructor
  · intro h
    have he : execClaudeModel runOnce jsonParse primary fallback
        = (postProcess jsonParse (runOnce fallback), true, [primary, fallback]) := by
      unfold execClaudeModel
      rw [if_pos h]
    exact ⟨he, by rw [he]; rfl, by rw [he]; rfl⟩
  · intro h
    unfold execClaudeModel
    rw [if_neg h]

def primaryDemo : ModelConfig := { model := "opus", api := "tok-a" }

def fallbackDemo : ModelConfig := { model := "glm", api := "tok-b" }

def rateLimitedText : String := String.mk (rateLimitNeedle apostropheChar)

def runOnceDemo (c : ModelConfig) : ExecOut :=
  if c == primaryDemo then { rawStdout := rateLimitedText, stderr := "", exitCode := 1 }
  else { rawStdout := "done", stderr := "", exitCode := 0 }

theorem rate_limit_fallback_C6_witness :
    (extractRateLimitMessage (runOnceDemo primaryDemo).rawStdout
        (runOnceDemo primaryDemo).stderr).isSome = true ∧
    execClaudeModel runOnceDemo (fun _ => none) primaryDemo fallbackDemo
      = (postProcess (fun _ => none) (runOnceDemo fallbackDemo), true,
          [primaryDemo, fallbackDemo]) :=
  ⟨by decide,
    ((rate_limit_fallback_C6 runOnceDemo (fun _ => none) primaryDemo fallbackDemo).1
      ⟨by decide, by decide, by decide⟩).1⟩

-- ### Job store and the 60-second cron tick

/-- A parsed job (jobs module; `recurring` and `notify` are read by the
daemon's cron tick). -/
structure Job where
  name : String
  schedule : String
  prompt : String
  recurring : Bool
deriving DecidableEq, Repr

/-- Modelled from the spec: `clearJobSchedule(name)` (its source file is not
in the corpus — only its caller, the cron tick, is) "rewrites the job file so
it can never match again", is idempotent, and is a no-op (not an error) if
the file was deleted concurrently.  The job files are modelled by their
schedule strings, keyed by job name, and the rewrite clears the schedule to
the empty string — a field-less schedule that `cronMatches` can never accept. -/
def clearJobSchedule (name : String) (store : List (String × String)) :
    List (String × String) :=
  store.map (fun e => if e.1 = name then (e.1, "") else e)

/-- The store effect of one 60-second cron tick (daemon main loop, lines
651-674): for every job whose schedule matches the tick instant, the runner
is invoked, and afterwards `clearJobSchedule` is applied iff the job is not
recurring. -/
def cronTickClears (jobs : List Job) (ms off : Int)
    (store : List (String × String)) : List (String × String) :=
  jobs.foldl
    (fun st j =>
      if cronMatches j.schedule ms off = some true ∧ j.recurring = false then
        clearJobSchedule j.name st
      else st)
    store

theorem cronMatches_empty_schedule (ms off : Int) :
    cronMatches "" ms off = some false := by
  have h : matchCronFieldL [] ((datePartsAt ms off).minute : Int) = false := rfl
  show checkFields [[]] (datePartsAt ms off) = some false
  unfold checkFields
  simp [h]

theorem clearJobSchedule_clears (name : String) (store : List (String × String)) :
    ∀ e ∈ clearJobSchedule name store, e.1 = name → e.2 = "" := by
  intro e he hn
  unfold clearJobSchedule at he
  obtain ⟨x, hx, hxe⟩ := List.mem_map.mp he
  by_cases hxn : x.1 = name
  · rw [if_pos hxn] at hxe
    rw [← hxe]
  · rw [if_neg hxn] at hxe
    rw [← hxe] at hn
    exact absurd hn hxn

theorem clearJobSchedule_preserves (name other : String) (store : List (String × String))
    (h : ∀ e ∈ store, e.1 = other → e.2 = "") :
    ∀ e ∈ clearJobSchedule name store, e.1 = other → e.2 = "" := by
  intro e he hn
  unfold clearJobSchedule at he
  obtain ⟨x, hx, hxe⟩ := List.mem_map.mp he
  by_cases hxn : x.1 = name
  · rw [if_pos hxn] at hxe
    rw [← hxe]
  · rw [if_neg hxn] at hxe
    rw [← hxe] at hn ⊢
    exact h x hx hn

theorem cronTickClears_preserves (jobs : List Job) (ms off : Int) (other : String)
    (store : List (String × String)) (h : ∀ e ∈ store, e.1 = other → e.2 = "") :
    ∀ e ∈ cronTickClears jobs ms off store, e.1 = other → e.2 = "" := by
  induction jobs generalizing store with
  | nil => exact h
  | cons j js ih =>
    unfold cronTickClears
    simp only [List.foldl_cons]
    by_cases hj : cronMatches j.schedule ms off = some true ∧ j.recurring = false
    · rw [if_pos hj]
      exact ih _ (clearJobSchedule_preserves j.name other store h)
    · rw [if_neg hj]
      exact ih _ h

theorem cronTickClears_fired (jobs : List Job) (ms off : Int) (j : Job)
    (store : List (String × String)) (hj : j ∈ jobs)
    (hm : cronMatches j.schedule ms off = some true) (hr : j.recurring = false) :
    ∀ e ∈ cronTickClears jobs ms off store, e.1 = j.name → e.2 = "" := by
  induction jobs generalizing store with
  | nil => cases hj
  | cons a as ih =>
    unfold cronTickClears
    simp only [List.foldl_cons]
    rcases List.mem_cons.mp hj with rfl | hj2
    · rw [if_pos ⟨hm, hr⟩]
      exact cronTickClears_preserves as ms off j.name _
        (clearJobSchedule_clears j.name store)
    · by_cases ha : cronMatches a.schedule ms off = some true ∧ a.recurring = false
      · rw [if_pos ha]
        exact ih _ hj2
      · rw [if_neg ha]
        exact ih _ hj2

theorem clearJobSchedule_idem (name : String) (store : List (String × String)) :
    clearJobSchedule name (clearJobSchedule name store) = clearJobSchedule name store := by
  unfold clearJobSchedule
  rw [List.map_map]
  apply List.map_congr_left
  intro e _
  by_cases hn : e.1 = name
  · simp [hn]
  · simp [Function.comp, hn]

theorem clearJobSchedule_missing (name : String) (store : List (String × String))
    (h : ∀ e ∈ store, e.1 ≠ name) : clearJobSchedule name store = store := by
  unfold clearJobSchedule
  have hid : List.map (fun e : String × String => if e.1 = name then (e.1, "") else e) store
      = List.map id store := by
    apply List.map_congr_left
    intro e he
    rw [if_neg (h e he)]
    rfl
  rw [hid, List.map_id]

/-- C7: a non-recurring job fires at most once.  After a cron tick on which
the job's schedule matched, every store entry for that job carries the
cleared (empty) schedule; the empty schedule matches no instant, so the
matcher can never fire the job again; `clearJobSchedule` is idempotent and a
no-op (not an error) when the job file is absent. -/
theorem one_shot_job_C7 :
    (∀ (jobs : List Job) (ms off : Int) (j : Job) (store : List (String × String)),
      j ∈ jobs → cronMatches j.schedule ms off = some true → j.recurring = false →
      ∀ e ∈ cronTickClears jobs ms off store, e.1 = j.name → e.2 = "") ∧
    (∀ (ms off : Int), cronMatches "" ms off = some false) ∧
    (∀ (name : String) (store : List (String × String)),
      clearJobSchedule name (clearJobSchedule name store) = clearJobSchedule name store) ∧
    (∀ (name : String) (store : List (String × String)),
      (∀ e ∈ store, e.1 ≠ name) → clearJobSchedule name store = store) := by
  refine ⟨?_, ?_, ?_, ?_⟩
  · intro jobs ms off j store hj hm hr
    exact cronTickClears_fired jobs ms off j store hj hm hr
  · intro ms off
    exact cronMatches_empty_schedule ms off
  · intro name store
    exact clearJobSchedule_idem name store
  · intro name store h
    exact clearJobSchedule_missing name store h

def onceJobDemo : Job :=
  { name := "once", schedule := "* * * * *", prompt := "p", recurring := false }

theorem one_shot_job_C7_witness :
    cronMatches "* * * * *" 90000 0 = some true ∧
    cronTickClears [onceJobDemo] 90000 0 [("once", "* * * * *")] = [("once", "")] ∧
    cronMatches "" 123456 0 = some false :=
  ⟨by decide, by decide, one_shot_job_C7.2.1 123456 0⟩

-- ### Settings and the 30-second hot-reload tick

structure SecurityConfig where
  level : String
  allowedTools : List String
  disallowedTools : List String
deriving DecidableEq, Repr

structure TelegramConfig where
  token : String
  allowedUserIds : List Int
deriving DecidableEq, Repr

structure WebConfig where
  enabled : Bool
  host : String
  port : Int
deriving DecidableEq, Repr

structure Settings where
  model : String
  api : String
  fallback : ModelConfig
  timezone : String
  timezoneOffsetMinutes : Int
  heartbeat : HeartbeatConfig
  telegram : TelegramConfig
  security : SecurityConfig
  web : WebConfig
deriving DecidableEq, Repr

/-- The heartbeat-affecting diff of the hot-reload tick (daemon main loop,
lines 580-586).  `JSON.stringify` equality of the parsed exclude-window lists
coincides with structural equality, since config parsing produces windows in
a fixed canonical field order. -/
def hbChanged (newS cur : Settings) : Bool :=
  newS.heartbeat.enabled != cur.heartbeat.enabled ||
  newS.heartbeat.interval != cur.heartbeat.interval ||
  newS.heartbeat.prompt != cur.heartbeat.prompt ||
  newS.timezoneOffsetMinutes != cur.timezoneOffsetMinutes ||
  newS.timezone != cur.timezone ||
  newS.heartbeat.excludeWindows != cur.heartbeat.excludeWindows

/-- `scheduleHeartbeat` (daemon main loop, lines 492-549) as a deadline
computation: disabled heartbeat clears the deadline to 0, an enabled one
recomputes it from wall-clock `now` via `nextAllowedHeartbeatAt` with the
interval in minutes scaled to ms. -/
def scheduleHeartbeatModel (s : Settings) (now : Int) : Int :=
  if s.heartbeat.enabled = false then 0
  else nextAllowedHeartbeatAt s.heartbeat s.timezoneOffsetMinutes
    (s.heartbeat.interval * 60000) now

/-- The job fingerprint diff used only for the "jobs reloaded" log line
(daemon main loop, lines 611-616). -/
def jobsFingerprint (jobs : List Job) : String :=
  String.intercalate "|"
    ((jobs.map (fun j => j.name ++ ":" ++ j.schedule ++ ":" ++ j.prompt)).mergeSort
      (fun a b => a ≤ b))

structure LoopState where
  settings : Settings
  jobs : List Job
  nextHeartbeatAt : Int
deriving Repr

/-- One hot-reload tick (daemon main loop, lines 574-624) restricted to its
effect on the scheduler state: always adopt the new settings and the freshly
loaded job list; reschedule the heartbeat iff a heartbeat-affecting field
changed; the fingerprint diff controls only the log flag returned last. -/
def hotReloadTick (st : LoopState) (newSettings : Settings) (newJobs : List Job)
    (now : Int) : LoopState × Bool × Bool :=
  let hb := hbChanged newSettings st.settings
  let logged := jobsFingerprint newJobs != jobsFingerprint st.jobs
  ({ settings := newSettings
     jobs := newJobs
     nextHeartbeatAt := if hb then scheduleHeartbeatModel newSettings now
       else st.nextHeartbeatAt },
   hb, logged)

/-- C8: every hot-reload tick adopts the freshly loaded job list and settings
regardless of the fingerprint diff (which only drives logging), and the
heartbeat deadline is recomputed iff one of the heartbeat-affecting fields —
enabled, interval, prompt, exclude windows, timezone name or offset — changed;
when none of them changed the scheduled deadline is left untouched. -/
theorem hot_reload_semantics_C8 (st : LoopState) (newSettings : Settings)
    (newJobs : List Job) (now : Int) :
    (hotReloadTick st newSettings newJobs now).1.jobs = newJobs ∧
    (hotReloadTick st newSettings newJobs now).1.settings = newSettings ∧
    ((hotReloadTick st newSettings newJobs now).2.1 = false ↔
      (newSettings.heartbeat.enabled = st.settings.heartbeat.enabled ∧
        newSettings.heartbeat.interval = st.settings.heartbeat.interval ∧
        newSettings.heartbeat.prompt = st.settings.heartbeat.prompt ∧
        newSettings.timezoneOffsetMinutes = st.settings.timezoneOffsetMinutes ∧
        newSettings.timezone = st.settings.timezone ∧
        newSettings.heartbeat.excludeWindows = st.settings.heartbeat.excludeWindows)) ∧
    ((hotReloadTick st newSettings newJobs now).2.1 = false →
      (hotReloadTick st newSettings newJobs now).1.nextHeartbeatAt = st.nextHeartbeatAt) ∧
    ((hotReloadTick st newSettings newJobs now).2.1 = true →
      (hotReloadTick st newSettings newJobs now).1.nextHeartbeatAt
        = scheduleHeartbeatModel newSettings now) := by
  refine ⟨rfl, rfl, ?_, ?_, ?_⟩
  · unfold hotReloadTick hbChanged
    simp only [Bool.or_eq_false_iff, bne_eq_false_iff_eq]
    tauto
  · intro h
    unfold hotReloadTick at h ⊢
    simp only at h
    simp [h]
  · intro h
    unfold hotReloadTick at h ⊢
    simp only at h
    simp [h]

def settingsDemo : Settings :=
  { model := "opus", api := "", fallback := { model := "", api := "" },
    timezone := "UTC", timezoneOffsetMinutes := 0,
    heartbeat := { enabled := false, interval := 15, prompt := "", excludeWindows := [] },
    telegram := { token := "", allowedUserIds := [] },
    security := { level := "moderate", allowedTools := [], disallowedTools := [] },
    web := { enabled := false, host := "0.0.0.0", port := 4632 } }

theorem hot_reload_semantics_C8_witness :
    (hotReloadTick ⟨settingsDemo, [], 7⟩ settingsDemo [onceJobDemo] 0).1.jobs
      = [onceJobDemo] ∧
    (hotReloadTick ⟨settingsDemo, [], 7⟩ settingsDemo [onceJobDemo] 0).1.nextHeartbeatAt = 7 :=
  ⟨(hot_reload_semantics_C8 ⟨settingsDemo, [], 7⟩ settingsDemo [onceJobDemo] 0).1,
    (hot_reload_semantics_C8 ⟨settingsDemo, [], 7⟩ settingsDemo [onceJobDemo] 0).2.2.2.1
      (by decide)⟩

-- ### PID-file daemon exclusion (pid.ts and the daemon start path)

/-- The world `checkExistingDaemon` interacts with: the PID file content (if
the file exists), the liveness probe `process.kill(pid, 0)` as an oracle, and
the current process id. -/
structure ProcWorld where
  pidFile : Option String
  alive : Int → Bool
  selfPid : Int

/-- `cleanupPidFile` (pid.ts:43-49): unlink, ignoring a missing file. -/
def cleanupPidFile (w : ProcWorld) : ProcWorld :=
  { w with pidFile := none }

/-- `writePidFile` (pid.ts:39-41): `String(process.pid) + "\n"`. -/
def writePidFile (w : ProcWorld) : ProcWorld :=
  { w with pidFile := some (toString w.selfPid ++ "\n") }

/-- `checkExistingDaemon` (pid.ts:15-37): missing file → null; `Number` of
the trimmed content falsy (`0`) or `NaN` → clean up the stale file, null;
liveness probe throws (dead pid) → clean up, null; otherwise the live pid. -/
def checkExistingDaemon (w : ProcWorld) : Option Int × ProcWorld :=
  match w.pidFile with
  | none => (none, w)
  | some raw =>
    match jsNumber (trimChars raw.toList) with
    | none => (none, cleanupPidFile w)
    | some p =>
      if p = 0 then (none, cleanupPidFile w)
      else if w.alive p then (some p, w)
      else (none, cleanupPidFile w)

inductive StartOutcome where
  | aborted : Int → StartOutcome
  | started : StartOutcome
deriving DecidableEq, Repr

/-- The PID-handling prefix of the daemon `start` path (daemon main loop,
lines 272-308): a live daemon aborts startup unless `--replace-existing` is
given, in which case the old process is signalled, awaited up to a bounded
timeout and its PID file removed; in every non-aborting path the daemon then
writes its own pid. -/
def daemonStartPid (w : ProcWorld) (replaceExisting : Bool) : StartOutcome × ProcWorld :=
  let r := checkExistingDaemon w
  match r.1 with
  | some pid =>
    if replaceExisting = false then (.aborted pid, r.2)
    else (.started, writePidFile (cleanupPidFile r.2))
  | none => (.started, writePidFile r.2)

/-- C9: at daemon startup, a PID file pointing to a live process aborts the
start (unless the explicit replace path is taken); an absent, unparseable or
dead-process PID file makes `checkExistingDaemon` return null with the stale
file removed, and startup proceeds, writing the current process id. -/
theorem pid_startup_C9 (w : ProcWorld) :
    (w.pidFile = none →
      checkExistingDaemon w = (none, w) ∧
      daemonStartPid w false
        = (.started, { w with pidFile := some (toString w.selfPid ++ "\n") })) ∧
    (∀ raw, w.pidFile = some raw → jsNumber (trimChars raw.toList) = none →
      checkExistingDaemon w = (none, cleanupPidFile w) ∧
      daemonStartPid w false
        = (.started, { w with pidFile := some (toString w.selfPid ++ "\n") })) ∧
    (∀ raw p, w.pidFile = some raw → jsNumber (trimChars raw.toList) = some p →
      p ≠ 0 → w.alive p = false →
      checkExistingDaemon w = (none, cleanupPidFile w) ∧
      daemonStartPid w false
        = (.started, { w with pidFile := some (toString w.selfPid ++ "\n") })) ∧
    (∀ raw p, w.pidFile = some raw → jsNumber (trimChars raw.toList) = some p →
      p ≠ 0 → w.alive p = true →
      checkExistingDaemon w = (some p, w) ∧
      daemonStartPid w false = (.aborted p, w)) := by
  refine ⟨?_, ?_, ?_, ?_⟩
  · intro h
    have hc : checkExistingDaemon w = (none, w) := by
      simp [checkExistingDaemon, h]
    refine ⟨hc, ?_⟩
    unfold daemonStartPid
    rw [hc]
    rfl
  · intro raw hraw hnan
    have hnan' : jsNumber (trimChars raw.data) = none := hnan
    have hc : checkExistingDaemon w = (none, cleanupPidFile w) := by
      simp [checkExistingDaemon, hraw, hnan']
    refine ⟨hc, ?_⟩
    unfold daemonStartPid
    rw [hc]
    rfl
  · intro raw p hraw hp hp0 hdead
    have hp' : jsNumber (trimChars raw.data) = some p := hp
    have hc : checkExistingDaemon w = (none, cleanupPidFile w) := by
      simp [checkExistingDaemon, hraw, hp', hp0, hdead]
    refine ⟨hc, ?_⟩
    unfold daemonStartPid
    rw [hc]
    rfl
  · intro raw p hraw hp hp0 halive
    have hp' : jsNumber (trimChars raw.data) = some p := hp
    have hc : checkExistingDaemon w = (some p, w) := by
      simp [checkExistingDaemon, hraw, hp', hp0, halive]
    refine ⟨hc, ?_⟩
    unfold daemonStartPid
    rw [hc]
    rfl

def staleWorldDemo : ProcWorld :=
  { pidFile := some "9999\n", alive := fun _ => false, selfPid := 42 }

theorem pid_startup_C9_witness :
    (daemonStartPid staleWorldDemo false).1 = .started ∧
    (daemonStartPid staleWorldDemo false).2.pidFile = some "42\n" := by
  have h := (pid_startup_C9 staleWorldDemo).2.2.1 "9999\n" 9999 rfl (by decide)
    (by decide) rfl
  rw [h.2]
  exact ⟨rfl, by decide⟩
